import Mathlib

/-!
Verification of the chat-analytics pipeline of `backend/app`:
the bounded per-channel message window (`services/message_buffer.py`),
the windowed metrics aggregator (`services/metrics_calculator.py`),
the statistical burst detector (`services/hype_detector.py`),
the WebSocket broadcast managers (`api/websockets/metrics_ws.py`,
`api/websockets/hype_ws.py`), and the orchestration loop
(`main.py`, `broadcast_metrics_loop`).

Timestamps and velocities are modelled as rationals (exact arithmetic
standing in for the source's datetimes/floats).
-/

namespace TwitchDash

/-- One chat message, after `models/chat_message.py` (`ChatMessage`).
Timestamps are rationals in seconds. -/
structure ChatMessage where
  id : String
  channel : String
  username : String
  content : String
  timestamp : ℚ
  emotes : List String
  badges : List String
deriving Repr, DecidableEq

/-- A Python dict keyed by strings, modelled extensionally: absent keys map
to `none`. -/
def Dict (α : Type) : Type := String → Option α

/-- The empty dict `{}`. -/
def Dict.empty {α : Type} : Dict α := fun _ => none

/-- `d[k] = v`. -/
def Dict.set {α : Type} (d : Dict α) (k : String) (v : α) : Dict α :=
  fun k' => if k' = k then some v else d k'

/-- `d.pop(k, None)` / `del d[k]`. -/
def Dict.erase {α : Type} (d : Dict α) (k : String) : Dict α :=
  fun k' => if k' = k then none else d k'

/-- `collections.deque(maxlen).append`: keep only the most recent `maxlen`
entries. For a deque already holding at most `maxlen` items this drops the
oldest entry exactly when the deque is full (and drops everything when
`maxlen = 0`, as CPython does). -/
def boundedAppend {α : Type} (maxlen : Nat) (xs : List α) (m : α) : List α :=
  (xs ++ [m]).drop (xs.length + 1 - maxlen)

/-- The per-channel message store of `services/message_buffer.py`
(`MessageBuffer`): a dict from channel name to a bounded deque of messages. -/
structure MessageBuffer where
  buffers : Dict (List ChatMessage)
  maxlen : Nat

/-- A fresh `MessageBuffer(maxlen)`. -/
def MessageBuffer.empty (maxlen : Nat) : MessageBuffer :=
  { buffers := Dict.empty, maxlen := maxlen }

/-- `MessageBuffer.add_message`: lowercases the channel, creates the deque on
first use, then appends with automatic eviction of the oldest entry. -/
def MessageBuffer.add_message (b : MessageBuffer) (channel : String) (m : ChatMessage) :
    MessageBuffer :=
  match b.buffers channel.toLower with
  | none => { b with buffers := b.buffers.set channel.toLower (boundedAppend b.maxlen [] m) }
  | some msgs =>
    { b with buffers := b.buffers.set channel.toLower (boundedAppend b.maxlen msgs m) }

/-- `if limit and len(messages) >= limit` in `get_messages_since`: the break
condition is hit only for a truthy (non-zero) limit. -/
def limitHit : Option Nat → Nat → Bool
  | none, _ => false
  | some k, n => decide (0 < k) && decide (k ≤ n)

/-- The collection loop of `MessageBuffer.get_messages_since`: iterate the
deque newest-to-oldest, keep messages with `timestamp ≥ since`, stop once the
limit is reached. -/
def collectSince (since : ℚ) (limit : Option Nat) :
    List ChatMessage → List ChatMessage → List ChatMessage
  | acc, [] => acc
  | acc, m :: rest =>
    if since ≤ m.timestamp then
      let acc2 := acc ++ [m]
      if limitHit limit acc2.length then acc2 else collectSince since limit acc2 rest
    else
      collectSince since limit acc rest

/-- `MessageBuffer.get_messages_since`: all messages of a channel with
`timestamp ≥ since`, oldest first; `[]` for unknown channels. The source
iterates the deque in reverse and reverses the collected list at the end. -/
def MessageBuffer.get_messages_since (b : MessageBuffer) (channel : String) (since : ℚ)
    (limit : Option Nat) : List ChatMessage :=
  match b.buffers channel.toLower with
  | none => []
  | some msgs => (collectSince since limit [] msgs.reverse).reverse

/-- Contents of one channel's deque (empty when the channel is absent). -/
def MessageBuffer.contents (b : MessageBuffer) (channel : String) : List ChatMessage :=
  match b.buffers channel.toLower with
  | none => []
  | some msgs => msgs

/-- Insert a list of messages one by one (the repeated-`add_message` pattern
of the ingestion callback `handle_twitch_message` in `main.py`). -/
def MessageBuffer.addAll (b : MessageBuffer) (channel : String) (ms : List ChatMessage) :
    MessageBuffer :=
  ms.foldl (fun acc m => acc.add_message channel m) b

/-! ## Metrics aggregator (`services/metrics_calculator.py`) -/

/-- All emote tokens across a message list, in message order: the
`all_emotes.extend(msg.emotes)` loop of `_get_top_emotes`. -/
def allTokens (messages : List ChatMessage) : List String :=
  messages.foldl (fun acc m => acc ++ m.emotes) []

/-- Key order of `collections.Counter` (dict insertion order): every distinct
token in order of first occurrence; `seen` holds the keys already present. -/
def firstKeysAux (seen : List String) : List String → List String
  | [] => []
  | t :: ts => if t ∈ seen then firstKeysAux seen ts else t :: firstKeysAux (t :: seen) ts

/-- `collections.Counter(tokens)` as an item list: each distinct token with
its count, keys in first-seen order. -/
def counterItems (tokens : List String) : List (String × Nat) :=
  (firstKeysAux [] tokens).map (fun e => (e, tokens.count e))

/-- Insert an item into a count-descending list after every entry with a
strictly greater count: the entry being inserted comes from earlier in the
original list, so it goes before existing entries of equal count. -/
def insertByCount (p : String × Nat) : List (String × Nat) → List (String × Nat)
  | [] => [p]
  | q :: t => if p.2 < q.2 then q :: insertByCount p t else p :: q :: t

/-- Stable sort by count, descending: the order produced by
`heapq.nlargest(n, items, key=itemgetter(1))`, which `Counter.most_common(n)`
uses (equivalent to a stable descending sort followed by truncation). -/
def sortByCountDesc : List (String × Nat) → List (String × Nat)
  | [] => []
  | p :: t => insertByCount p (sortByCountDesc t)

/-- `Counter(tokens).most_common(n)`. -/
def mostCommon (tokens : List String) (n : Nat) : List (String × Nat) :=
  (sortByCountDesc (counterItems tokens)).take n

/-- `MetricsCalculator._get_top_emotes`. -/
def get_top_emotes (messages : List ChatMessage) (limit : Nat) : List (String × Nat) :=
  mostCommon (allTokens messages) limit

/-- `MetricsCalculator._count_unique_chatters`: the number of distinct
case-folded usernames. -/
def count_unique_chatters (messages : List ChatMessage) : Nat :=
  (messages.map (fun m => m.username.toLower)).dedup.length

/-- `round(x, 1)`. -/
def round1 (x : ℚ) : ℚ := ((round (x * 10) : ℤ) : ℚ) / 10

/-- `round(x, 2)`. -/
def round2 (x : ℚ) : ℚ := ((round (x * 100) : ℤ) : ℚ) / 100

/-- `MetricsCalculator._calculate_avg_message_length`. -/
def calculate_avg_message_length (messages : List ChatMessage) : ℚ :=
  if messages = [] then 0
  else round1 ((messages.map (fun m => (m.content.length : ℚ))).sum / messages.length)

/-- The per-channel metrics snapshot of `models/chat_message.py`
(`ChannelMetrics`). -/
structure ChannelMetrics where
  channel : String
  timestamp : ℚ
  messages_per_second : ℚ
  messages_last_minute : Nat
  unique_chatters_5min : Nat
  top_emotes : List (String × Nat)
  avg_message_length : ℚ

/-- `MetricsCalculator._get_messages_in_window`: the buffer contents with
`since = now - seconds`. -/
def get_messages_in_window (b : MessageBuffer) (channel : String) (now seconds : ℚ) :
    List ChatMessage :=
  b.get_messages_since channel (now - seconds) none

/-- `MetricsCalculator.calculate_metrics`. -/
def calculate_metrics (b : MessageBuffer) (channel : String) (now : ℚ) : ChannelMetrics :=
  let m1 := get_messages_in_window b channel now 1
  let m60 := get_messages_in_window b channel now 60
  let m300 := get_messages_in_window b channel now 300
  { channel := channel
    timestamp := now
    messages_per_second := (m1.length : ℚ)
    messages_last_minute := m60.length
    unique_chatters_5min := count_unique_chatters m300
    top_emotes := get_top_emotes m300 10
    avg_message_length := calculate_avg_message_length m300 }

/-! ## Burst detector (`services/hype_detector.py`) -/

/-- A detected hype moment (`HypeEvent` dataclass). -/
structure HypeEvent where
  channel : String
  timestamp : ℚ
  velocity : ℚ
  baseline_mean : ℚ
  baseline_std : ℚ
  multiplier : ℚ
  top_emotes : List (String × Nat)
deriving Repr, DecidableEq

/-- `HypeDetector` state: configuration plus the per-channel rolling
`(timestamp, velocity)` windows and the per-channel last-burst times. -/
structure HypeDetector where
  window_seconds : ℚ
  threshold_std : ℚ
  cooldown_seconds : ℚ
  min_velocity : ℚ
  velocity_windows : Dict (List (ℚ × ℚ))
  last_hype : Dict ℚ

/-- `HypeDetector.__init__`. -/
def HypeDetector.init (window_seconds threshold_std cooldown_seconds min_velocity : ℚ) :
    HypeDetector :=
  { window_seconds := window_seconds
    threshold_std := threshold_std
    cooldown_seconds := cooldown_seconds
    min_velocity := min_velocity
    velocity_windows := Dict.empty
    last_hype := Dict.empty }

/-- `statistics.mean`. -/
def sampleMean (vs : List ℚ) : ℚ := vs.sum / vs.length

/-- The sample variance computed inside `statistics.stdev`:
`Σ (v - mean)² / (n - 1)`. -/
def sampleVariance (vs : List ℚ) : ℚ :=
  (vs.map (fun v => (v - sampleMean vs) ^ 2)).sum / ((vs.length : ℚ) - 1)

/-- `HypeDetector.record_velocity`: append `(now, velocity)` and pop
measurements older than `now - window_seconds` from the left. -/
def HypeDetector.record_velocity (d : HypeDetector) (channel : String) (velocity now : ℚ) :
    HypeDetector :=
  let w := (d.velocity_windows channel).getD []
  let w := w ++ [(now, velocity)]
  let cutoff := now - d.window_seconds
  let w := w.dropWhile (fun p => decide (p.1 < cutoff))
  { d with velocity_windows := d.velocity_windows.set channel w }

/-- The cooldown gate of `check_for_hype`: a prior burst for this channel
less than `cooldown_seconds` ago. -/
def cooldownActive (d : HypeDetector) (channel : String) (now : ℚ) : Bool :=
  match d.last_hype channel with
  | none => false
  | some t => decide (now - t < d.cooldown_seconds)

/-- `statistics.stdev` with the zero-substitution of `check_for_hype`:
`std = stdev(velocities) if len > 1 else 0; if std == 0: std = 0.1`.
`sqrtFn` abstracts the square root inside `statistics.stdev`; the theorems
below constrain it only where the source's behavior depends on it (through
hypotheses such as `sqrtFn x = 0`, true of the real square root at `x = 0`). -/
def effectiveStd (sqrtFn : ℚ → ℚ) (vs : List ℚ) : ℚ :=
  let std := if 1 < vs.length then sqrtFn (sampleVariance vs) else 0
  if std = 0 then 1/10 else std

/-- `threshold = mean + (self.threshold_std * std)` of `check_for_hype`. -/
def burstThreshold (d : HypeDetector) (sqrtFn : ℚ → ℚ) (vs : List ℚ) : ℚ :=
  sampleMean vs + d.threshold_std * effectiveStd sqrtFn vs

/-- `HypeDetector.check_for_hype`: cooldown gate, noise floor, minimum
sample count, then the two-sigma threshold test; on a burst the event is
returned and `last_hype[channel]` is set to `now`, otherwise the state is
returned as received. -/
def HypeDetector.check_for_hype (d : HypeDetector) (sqrtFn : ℚ → ℚ) (channel : String)
    (current_velocity : ℚ) (top_emotes : List (String × Nat)) (now : ℚ) :
    Option HypeEvent × HypeDetector :=
  if cooldownActive d channel now then (none, d)
  else if current_velocity < d.min_velocity then (none, d)
  else
    match d.velocity_windows channel with
    | none => (none, d)
    | some w =>
      if w.length < 10 then (none, d)
      else
        let velocities := w.map (fun p => p.2)
        let mean := sampleMean velocities
        let threshold := burstThreshold d sqrtFn velocities
        if threshold < current_velocity then
          let multiplier := if 0 < mean then current_velocity / mean else current_velocity
          let event : HypeEvent :=
            { channel := channel
              timestamp := now
              velocity := current_velocity
              baseline_mean := round2 mean
              baseline_std := round2 (effectiveStd sqrtFn velocities)
              multiplier := round2 multiplier
              top_emotes := top_emotes }
          (some event, { d with last_hype := d.last_hype.set channel now })
        else (none, d)

/-! ## Broadcast registry (`api/websockets/metrics_ws.py`,
`api/websockets/hype_ws.py`)

Both `ConnectionManager.broadcast_metrics` and
`HypeConnectionManager.broadcast_hype` run the same algorithm: send the
payload to every registered sink, collect the sinks whose send raised into a
`disconnected` set, then remove exactly those from the registry. A sink is
modelled by an identifier; whether sending the current payload to a given
sink succeeds is the environment function `sendOk`. -/

/-- An abstract WebSocket sink, by identity. -/
abbrev Sink := Nat

/-- The send loop: returns (sinks that received the payload, sinks whose
send raised), preserving registry order. -/
def broadcastPass (sendOk : Sink → Bool) : List Sink → List Sink × List Sink
  | [] => ([], [])
  | s :: rest =>
    let (del, dis) := broadcastPass sendOk rest
    if sendOk s then (s :: del, dis) else (del, s :: dis)

/-- `broadcast_metrics` / `broadcast_hype`: early return on an empty
registry, otherwise the send loop followed by
`self.active_connections -= disconnected`. Returns (delivered, new
registry). -/
def broadcast (conns : List Sink) (sendOk : Sink → Bool) : List Sink × List Sink :=
  if conns = [] then ([], conns)
  else
    let (delivered, disconnected) := broadcastPass sendOk conns
    (delivered, conns.filter (fun s => decide (s ∉ disconnected)))

/-! ## Orchestration loop (`main.py`, `broadcast_metrics_loop`)

The loop body is modelled by its control flow: per tick it iterates the
configured channels; per channel it runs the synchronous metrics/detector
stage, then (when a hype event fired) `try: await repo.create(event); await
hype_manager.broadcast_hype(event) except Exception: logger.error(...)`, and
finally `await ws_manager.broadcast_metrics(metrics)`. The whole per-tick
iteration sits in one `try` whose handlers are `except asyncio.CancelledError:
break` and `except Exception: logger.error(...); await asyncio.sleep(1)`.
What each collaborator call does is supplied by the environment: each awaited
call either returns, raises an ordinary exception, or raises
`asyncio.CancelledError` (which `except Exception` does not catch). -/

/-- Result of one awaited collaborator call. -/
inductive Outcome
  | ok
  | raised
  | cancel
deriving Repr, DecidableEq

/-- Environment choices for one channel in one tick. -/
structure ChannelStep where
  metricsRaises : Bool
  hypeDetected : Bool
  saveOutcome : Outcome
  hypeBroadcastOutcome : Outcome
  metricsBroadcastOutcome : Outcome
deriving Repr, DecidableEq

/-- What observably happened for one channel in one tick. -/
structure ChannelTrace where
  hypeSaved : Bool
  hypeBroadcast : Bool
  hypeErrorLogged : Bool
  metricsBroadcast : Bool
deriving Repr, DecidableEq

/-- How one channel's processing ended: fell through normally, raised an
ordinary exception, or raised a cancellation. -/
inductive StepSignal
  | completed
  | errored
  | cancelled
deriving Repr, DecidableEq

/-- The tail of one channel's processing: `await
ws_manager.broadcast_metrics(metrics)`. -/
def finishChannel (t : ChannelTrace) (o : Outcome) : StepSignal × ChannelTrace :=
  match o with
  | .ok => (.completed, { t with metricsBroadcast := true })
  | .raised => (.errored, t)
  | .cancel => (.cancelled, t)

/-- One channel's processing inside the tick: metrics stage, the inner
save/broadcast `try` (a save failure is caught and logged there, skipping the
hype broadcast but not the metrics broadcast), then the metrics broadcast. -/
def processChannel (s : ChannelStep) : StepSignal × ChannelTrace :=
  if s.metricsRaises then (.errored, ⟨false, false, false, false⟩)
  else if s.hypeDetected then
    match s.saveOutcome with
    | .cancel => (.cancelled, ⟨false, false, false, false⟩)
    | .raised => finishChannel ⟨false, false, true, false⟩ s.metricsBroadcastOutcome
    | .ok =>
      match s.hypeBroadcastOutcome with
      | .cancel => (.cancelled, ⟨true, false, false, false⟩)
      | .raised => finishChannel ⟨true, false, true, false⟩ s.metricsBroadcastOutcome
      | .ok => finishChannel ⟨true, true, false, false⟩ s.metricsBroadcastOutcome
  else finishChannel ⟨false, false, false, false⟩ s.metricsBroadcastOutcome

/-- How the per-tick channel iteration ended. -/
inductive TickSignal
  | completed
  | errored
  | cancelled
deriving Repr, DecidableEq

/-- One tick's `for channel in channels_list` iteration: an exception escaping
one channel's processing ends the iteration (it is handled by the `try` that
wraps the whole tick, not per channel). Returns the per-channel traces in
processing order plus the way the iteration ended. -/
def runTick (steps : String → ChannelStep) :
    List String → List (String × ChannelTrace) × TickSignal
  | [] => ([], .completed)
  | c :: rest =>
    match processChannel (steps c) with
    | (.completed, tr) =>
      let (ts, sig) := runTick steps rest
      ((c, tr) :: ts, sig)
    | (.errored, tr) => ([(c, tr)], .errored)
    | (.cancelled, tr) => ([(c, tr)], .cancelled)

/-- Why a bounded run of the loop stopped. -/
inductive LoopEnd
  | cancelled
  | fuelExhausted
deriving Repr, DecidableEq

/-- `broadcast_metrics_loop`'s `while True`, run for at most `fuel` ticks
starting at tick index `t0`. A cancellation inside the tick body breaks the
loop (`except asyncio.CancelledError: break`); any other exception is logged
and the loop sleeps and continues (`except Exception: ...; await
asyncio.sleep(1)`); `sleepCancel t` says whether the cancellation signal
arrives during tick `t`'s sleep. Returns each executed tick's traces and why
the run stopped. -/
def broadcastMetricsLoop (steps : Nat → String → ChannelStep) (sleepCancel : Nat → Bool)
    (channels : List String) :
    Nat → Nat → List (Nat × List (String × ChannelTrace)) × LoopEnd
  | 0, _ => ([], .fuelExhausted)
  | fuel + 1, t =>
    let (trs, sig) := runTick (steps t) channels
    match sig with
    | .cancelled => ([(t, trs)], .cancelled)
    | _ =>
      if sleepCancel t then ([(t, trs)], .cancelled)
      else
        let (rest, e) := broadcastMetricsLoop steps sleepCancel channels fuel (t + 1)
        ((t, trs) :: rest, e)

/-! ## Concrete data for scenarios and witnesses -/

/-- Scenario message A (timestamp 1). -/
def msgA : ChatMessage :=
  { id := "A", channel := "c", username := "alice", content := "hey", timestamp := 1,
    emotes := ["LUL"], badges := [] }

/-- Scenario message B (timestamp 2). -/
def msgB : ChatMessage :=
  { id := "B", channel := "c", username := "bob", content := "hi", timestamp := 2,
    emotes := [], badges := [] }

/-- Scenario message C (timestamp 3). -/
def msgC : ChatMessage :=
  { id := "C", channel := "c", username := "carol", content := "yo", timestamp := 3,
    emotes := ["LUL"], badges := [] }

/-- Scenario message D (timestamp 4). -/
def msgD : ChatMessage :=
  { id := "D", channel := "c", username := "dan", content := "sup", timestamp := 4,
    emotes := ["KEKW"], badges := [] }

/-- Ten velocity samples, all equal to 5 messages/second. -/
def sampleWindow : List (ℚ × ℚ) :=
  [(0, 5), (1, 5), (2, 5), (3, 5), (4, 5), (5, 5), (6, 5), (7, 5), (8, 5), (9, 5)]

/-- A square-root stand-in that is identically zero; used only at inputs
where the sample variance is zero. -/
def sqrtZero : ℚ → ℚ := fun _ => 0

/-- A square-root stand-in vanishing exactly at zero, as the real square
root does on its nonnegative inputs. -/
def sqrtLike : ℚ → ℚ := fun x => if x = 0 then 0 else 1

/-- A detector with the production configuration that emitted a burst for
channel "c" at time 0 and holds ten retained samples for it. -/
def detectorAfterBurst : HypeDetector :=
  { window_seconds := 60, threshold_std := 2, cooldown_seconds := 30, min_velocity := 5,
    velocity_windows := Dict.empty.set "c" sampleWindow,
    last_hype := Dict.empty.set "c" 0 }

/-- A detector with the production configuration, ten retained samples for
channel "c", and no prior burst. -/
def detectorQuiet : HypeDetector :=
  { window_seconds := 60, threshold_std := 2, cooldown_seconds := 30, min_velocity := 5,
    velocity_windows := Dict.empty.set "c" sampleWindow,
    last_hype := Dict.empty }

/-- A channel step in which every collaborator call succeeds and no hype
fires. -/
def stepOkay : ChannelStep :=
  { metricsRaises := false, hypeDetected := false, saveOutcome := .ok,
    hypeBroadcastOutcome := .ok, metricsBroadcastOutcome := .ok }

/-- A channel step whose metrics broadcast raises an ordinary exception. -/
def stepBroadcastRaises : ChannelStep :=
  { metricsRaises := false, hypeDetected := false, saveOutcome := .ok,
    hypeBroadcastOutcome := .ok, metricsBroadcastOutcome := .raised }

/-- A channel step whose metrics broadcast is interrupted by the
cancellation signal. -/
def stepBroadcastCancelled : ChannelStep :=
  { metricsRaises := false, hypeDetected := false, saveOutcome := .ok,
    hypeBroadcastOutcome := .ok, metricsBroadcastOutcome := .cancel }

/-- A channel step with a hype event whose durable-store save raises while
every other call would succeed. -/
def stepSaveFails : ChannelStep :=
  { metricsRaises := false, hypeDetected := true, saveOutcome := .raised,
    hypeBroadcastOutcome := .ok, metricsBroadcastOutcome := .ok }

/-- A tick in which processing channel "a" raises and channel "b" would
succeed. -/
def envOneFailure : String → ChannelStep :=
  fun c => if c = "a" then stepBroadcastRaises else stepOkay

/-- A tick in which channel "a"'s broadcast is cancelled and channel "b"
would succeed. -/
def envOneCancel : String → ChannelStep :=
  fun c => if c = "a" then stepBroadcastCancelled else stepOkay

/-! ## Theorems -/

/-- Setting then reading the same key. -/
theorem Dict.set_self {α : Type} (d : Dict α) (k : String) (v : α) : d.set k v k = some v := by
  simp [Dict.set]

/-- `add_message` leaves the capacity unchanged. -/
theorem MessageBuffer.maxlen_add_message (b : MessageBuffer) (c : String) (m : ChatMessage) :
    (b.add_message c m).maxlen = b.maxlen := by
  cases h : b.buffers c.toLower <;> simp [MessageBuffer.add_message, h]

/-- `add_message` appends to the channel's deque with bounded eviction. -/
theorem MessageBuffer.contents_add_message (b : MessageBuffer) (c : String) (m : ChatMessage) :
    (b.add_message c m).contents c = boundedAppend b.maxlen (b.contents c) m := by
  cases h : b.buffers c.toLower <;>
    simp [MessageBuffer.add_message, MessageBuffer.contents, h, Dict.set]

/-- Length of a bounded append. -/
theorem length_boundedAppend {α : Type} (N : Nat) (xs : List α) (m : α) :
    (boundedAppend N xs m).length = min (xs.length + 1) N := by
  simp [boundedAppend]
  omega

/-- Folding bounded appends keeps exactly the most recent `N` entries. -/
theorem foldl_boundedAppend {α : Type} (N : Nat) (ms : List α) :
    ∀ xs : List α, xs.length ≤ N →
      ms.foldl (boundedAppend N) xs = (xs ++ ms).drop (xs.length + ms.length - N) := by
  induction ms with
  | nil =>
    intro xs h
    simp [Nat.sub_eq_zero_of_le h]
  | cons m rest ih =>
    intro xs h
    rw [List.foldl_cons, ih (boundedAppend N xs m) (by rw [length_boundedAppend]; omega)]
    have h1 : boundedAppend N xs m = (xs ++ [m]).drop (xs.length + 1 - N) := rfl
    have h2 : (boundedAppend N xs m).length = xs.length + 1 - (xs.length + 1 - N) := by
      rw [h1, List.length_drop]
      simp
    have hd : xs.length + 1 - N ≤ (xs ++ [m]).length := by simp
    rw [h2, h1, ← List.drop_append_of_le_length hd, List.drop_drop, List.append_assoc,
      List.singleton_append]
    congr 1
    simp only [List.length_cons]
    omega

/-- `addAll` leaves the capacity unchanged. -/
theorem MessageBuffer.maxlen_addAll (b : MessageBuffer) (c : String) (ms : List ChatMessage) :
    (b.addAll c ms).maxlen = b.maxlen := by
  induction ms generalizing b with
  | nil => rfl
  | cons m rest ih =>
    show ((b.add_message c m).addAll c rest).maxlen = _
    rw [ih, MessageBuffer.maxlen_add_message]

/-- Contents of a channel after a sequence of insertions. -/
theorem MessageBuffer.contents_addAll (b : MessageBuffer) (c : String) (ms : List ChatMessage) :
    (b.addAll c ms).contents c = ms.foldl (boundedAppend b.maxlen) (b.contents c) := by
  induction ms generalizing b with
  | nil => rfl
  | cons m rest ih =>
    show ((b.add_message c m).addAll c rest).contents c = _
    rw [ih, MessageBuffer.contents_add_message, MessageBuffer.maxlen_add_message]
    rfl

/-- The empty buffer has empty channel contents. -/
theorem MessageBuffer.contents_empty (N : Nat) (c : String) :
    (MessageBuffer.empty N).contents c = [] := rfl

/-- The fresh buffer's capacity. -/
theorem MessageBuffer.maxlen_empty (N : Nat) : (MessageBuffer.empty N).maxlen = N := rfl

/-- **C3** (bounded window): after inserting `ms` in order into a fresh
window of capacity `N`, the window holds exactly the most recent `N` (or
fewer) messages in insertion order, its size is `min ms.length N`, and — for
a full window of positive capacity — one further insertion evicts exactly the
oldest entry. -/
theorem bounded_window (N : Nat) (c : String) (ms : List ChatMessage) :
    (((MessageBuffer.empty N).addAll c ms).contents c = ms.drop (ms.length - N))
    ∧ ((((MessageBuffer.empty N).addAll c ms).contents c).length = min ms.length N)
    ∧ (∀ m : ChatMessage, 0 < N → N ≤ ms.length →
        (((MessageBuffer.empty N).addAll c ms).add_message c m).contents c
          = ((((MessageBuffer.empty N).addAll c ms).contents c).tail) ++ [m]) := by
  have hcont : ((MessageBuffer.empty N).addAll c ms).contents c = ms.drop (ms.length - N) := by
    rw [MessageBuffer.contents_addAll, MessageBuffer.contents_empty,
      MessageBuffer.maxlen_empty, foldl_boundedAppend N ms [] (by simp)]
    simp
  refine ⟨hcont, ?_, ?_⟩
  · rw [hcont, List.length_drop]
    omega
  · intro m hN hfull
    rw [MessageBuffer.contents_add_message, MessageBuffer.maxlen_addAll, hcont]
    have hlen : (ms.drop (ms.length - N)).length = N := by
      rw [List.length_drop]; omega
    show (ms.drop (ms.length - N) ++ [m]).drop ((ms.drop (ms.length - N)).length + 1 - N) = _
    rw [hlen]
    have h1 : N + 1 - N = 1 := by omega
    rw [h1, List.drop_append_of_le_length (by rw [hlen]; omega), List.drop_one]

/-- **C3 witness**: capacity 2, insertions A,B,C, then D: the window holds
[B, C] (size `min 3 2`), and inserting D evicts exactly B. -/
theorem bounded_window_witness :
    (((MessageBuffer.empty 2).addAll "c" [msgA, msgB, msgC]).add_message "c" msgD).contents "c"
      = ((((MessageBuffer.empty 2).addAll "c" [msgA, msgB, msgC]).contents "c").tail)
        ++ [msgD] :=
  (bounded_window 2 "c" [msgA, msgB, msgC]).2.2 msgD (by omega) (by simp)

/-- With no limit the collection loop keeps every matching message. -/
theorem collectSince_none (since : ℚ) (l : List ChatMessage) :
    ∀ acc : List ChatMessage,
      collectSince since none acc l = acc ++ l.filter (fun m => decide (since ≤ m.timestamp)) := by
  induction l with
  | nil => intro acc; simp [collectSince]
  | cons m rest ih =>
    intro acc
    by_cases h : since ≤ m.timestamp
    · simp [collectSince, h, limitHit, ih, List.filter_cons]
    · simp [collectSince, h, ih, List.filter_cons]

/-- `get_messages_since` with no limit is a timestamp filter over the
channel's contents, in arrival order (empty for unknown channels). -/
theorem get_messages_since_eq_filter (b : MessageBuffer) (c : String) (since : ℚ) :
    b.get_messages_since c since none
      = (b.contents c).filter (fun m => decide (since ≤ m.timestamp)) := by
  cases h : b.buffers c.toLower with
  | none => simp [MessageBuffer.get_messages_since, MessageBuffer.contents, h]
  | some msgs =>
    simp only [MessageBuffer.get_messages_since, MessageBuffer.contents, h]
    rw [collectSince_none]
    simp [List.filter_reverse]

/-- **C4** (query semantics): `get_messages_since` returns exactly the stored
events with `timestamp ≥ since`, oldest first in arrival order, and the empty
sequence for a channel with no buffer; concretely, with capacity 3 and
insertions A,B,C,D the window holds [B,C,D], `query(since = B.timestamp)`
returns [B,C,D] and `query(since = D.timestamp + 1)` returns []. -/
theorem query_since_filter :
    (∀ (b : MessageBuffer) (c : String) (since : ℚ),
        b.get_messages_since c since none
          = (b.contents c).filter (fun m => decide (since ≤ m.timestamp)))
    ∧ (∀ (N : Nat) (c : String) (since : ℚ),
        (MessageBuffer.empty N).get_messages_since c since none = [])
    ∧ (((MessageBuffer.empty 3).addAll "c" [msgA, msgB, msgC, msgD]).contents "c"
        = [msgB, msgC, msgD])
    ∧ (((MessageBuffer.empty 3).addAll "c" [msgA, msgB, msgC, msgD]).get_messages_since
        "c" msgB.timestamp none = [msgB, msgC, msgD])
    ∧ (((MessageBuffer.empty 3).addAll "c" [msgA, msgB, msgC, msgD]).get_messages_since
        "c" (msgD.timestamp + 1) none = []) := by
  have hc : ((MessageBuffer.empty 3).addAll "c" [msgA, msgB, msgC, msgD]).contents "c"
      = [msgB, msgC, msgD] := by
    rw [MessageBuffer.contents_addAll, MessageBuffer.contents_empty, MessageBuffer.maxlen_empty,
      foldl_boundedAppend 3 _ [] (by simp)]
    simp
  refine ⟨get_messages_since_eq_filter, ?_, hc, ?_, ?_⟩
  · intro N c since
    rw [get_messages_since_eq_filter, MessageBuffer.contents_empty]
    rfl
  · rw [get_messages_since_eq_filter, hc]
    norm_num [msgB, msgC, msgD, List.filter_cons]
  · rw [get_messages_since_eq_filter, hc]
    norm_num [msgB, msgC, msgD, List.filter_cons]

/-- **C8** (windowed counts are monotonic in horizon length): for any fixed
buffer state, channel and evaluation time, the 60-second horizon holds at
least as many events as the 1-second horizon, and the 300-second horizon at
least as many as the 60-second one. -/
theorem window_counts_monotonic (b : MessageBuffer) (c : String) (now : ℚ) :
    (get_messages_in_window b c now 1).length ≤ (get_messages_in_window b c now 60).length
    ∧ (get_messages_in_window b c now 60).length
        ≤ (get_messages_in_window b c now 300).length := by
  have key : ∀ s t : ℚ, t ≤ s →
      (get_messages_in_window b c now t).length ≤ (get_messages_in_window b c now s).length := by
    intro s t hst
    unfold get_messages_in_window
    rw [get_messages_since_eq_filter, get_messages_since_eq_filter,
      ← List.countP_eq_length_filter, ← List.countP_eq_length_filter]
    apply List.countP_mono_left
    intro m _ h
    simp only [decide_eq_true_eq] at h ⊢
    linarith
  exact ⟨key 60 1 (by norm_num), key 300 60 (by norm_num)⟩

/-- The mean of `n` copies of `x` is `x`. -/
theorem sampleMean_replicate (n : Nat) (x : ℚ) (h : n ≠ 0) :
    sampleMean (List.replicate n x) = x := by
  have hn : (n : ℚ) ≠ 0 := by exact_mod_cast h
  simp [sampleMean, List.sum_replicate, nsmul_eq_mul]
  field_simp

/-- The sample variance of `n` identical samples is zero. -/
theorem sampleVariance_replicate (n : Nat) (x : ℚ) (h : n ≠ 0) :
    sampleVariance (List.replicate n x) = 0 := by
  simp [sampleVariance, sampleMean_replicate n x h, List.map_replicate, sub_self,
    List.sum_replicate]

/-- **C5** (cooldown gate): after a burst for channel `c` at time `T` on a
detector with cooldown 30s, every `check_for_hype` call for `c` strictly
before `T + 30` returns none regardless of the velocity and the baseline
state, while a call at `T + 31` is past the cooldown gate: it returns an
event whenever the remaining conditions (noise floor, sample count,
threshold) are met. -/
theorem cooldown_gate (d : HypeDetector) (sqrtFn : ℚ → ℚ) (c : String) (T : ℚ)
    (hcool : d.cooldown_seconds = 30) (hlast : d.last_hype c = some T) :
    (∀ (cv t : ℚ) (emotes : List (String × Nat)), t < T + 30 →
      (d.check_for_hype sqrtFn c cv emotes t).1 = none)
    ∧ (∀ (cv : ℚ) (emotes : List (String × Nat)) (w : List (ℚ × ℚ)),
        d.velocity_windows c = some w → 10 ≤ w.length →
        d.min_velocity ≤ cv →
        burstThreshold d sqrtFn (w.map (fun p => p.2)) < cv →
        ((d.check_for_hype sqrtFn c cv emotes (T + 31)).1).isSome = true) := by
  constructor
  · intro cv t emotes ht
    have hact : cooldownActive d c t = true := by
      simp [cooldownActive, hlast, hcool]
      linarith
    simp [HypeDetector.check_for_hype, hact]
  · intro cv emotes w hw hlen hmin hth
    have hact : cooldownActive d c (T + 31) = false := by
      simp [cooldownActive, hlast, hcool]
      linarith
    simp [HypeDetector.check_for_hype, hact, hw, Nat.not_lt.mpr hlen, not_lt.mpr hmin, hth]

/-- **C5 witness**: with the production configuration, a burst for "c" at
time 0 and ten retained samples of velocity 5, a call at time 29 with
velocity 100 returns none, and a call at time 31 with velocity 6 (above the
epsilon threshold 5.2) returns an event. -/
theorem cooldown_gate_witness :
    ((detectorAfterBurst.check_for_hype sqrtZero "c" 100 [] 29).1 = none)
    ∧ ((detectorAfterBurst.check_for_hype sqrtZero "c" 6 [] 31).1).isSome = true := by
  have h := cooldown_gate detectorAfterBurst sqrtZero "c" 0 rfl
    (by simp [detectorAfterBurst, Dict.set])
  constructor
  · exact h.1 100 29 [] (by norm_num)
  · have h2 := h.2 6 [] sampleWindow
      (by simp [detectorAfterBurst, Dict.set]) (by simp [sampleWindow])
      (by norm_num [detectorAfterBurst])
      (by norm_num [burstThreshold, effectiveStd, sampleMean, sampleVariance, sampleWindow,
        sqrtZero, detectorAfterBurst])
    simpa using h2

/-- **C6** (zero-std handling): when the computed sample standard deviation
of the retained velocities is zero (at least 10 samples retained, past the
cooldown gate and the noise floor), the detector substitutes epsilon 0.1,
evaluates the velocity against `mean + threshold_std * 0.1`, emits a burst
exactly when the velocity exceeds that epsilon threshold, and the only
division by the baseline mean is guarded by `mean > 0`. -/
theorem zero_std_epsilon (d : HypeDetector) (sqrtFn : ℚ → ℚ) (c : String) (cv now : ℚ)
    (emotes : List (String × Nat)) (w : List (ℚ × ℚ))
    (hcool : cooldownActive d c now = false)
    (hmin : d.min_velocity ≤ cv)
    (hw : d.velocity_windows c = some w)
    (hlen : 10 ≤ w.length)
    (hstd : sqrtFn (sampleVariance (w.map (fun p => p.2))) = 0) :
    (effectiveStd sqrtFn (w.map (fun p => p.2)) = 1/10)
    ∧ (burstThreshold d sqrtFn (w.map (fun p => p.2))
        = sampleMean (w.map (fun p => p.2)) + d.threshold_std * (1/10))
    ∧ (((d.check_for_hype sqrtFn c cv emotes now).1).isSome
        ↔ sampleMean (w.map (fun p => p.2)) + d.threshold_std * (1/10) < cv)
    ∧ (∀ ev, (d.check_for_hype sqrtFn c cv emotes now).1 = some ev →
        ev.baseline_std = round2 (1/10)
        ∧ ev.multiplier = round2 (if 0 < sampleMean (w.map (fun p => p.2))
            then cv / sampleMean (w.map (fun p => p.2)) else cv)) := by
  have hone : 1 < w.length := by omega
  have heff : effectiveStd sqrtFn (w.map (fun p => p.2)) = 1/10 := by
    simp [effectiveStd, hstd, hone]
  have hthr : burstThreshold d sqrtFn (w.map (fun p => p.2))
      = sampleMean (w.map (fun p => p.2)) + d.threshold_std * (1/10) := by
    rw [burstThreshold, heff]
  have hchk : d.check_for_hype sqrtFn c cv emotes now
      = (if burstThreshold d sqrtFn (w.map (fun p => p.2)) < cv then
          (some { channel := c, timestamp := now, velocity := cv,
                  baseline_mean := round2 (sampleMean (w.map (fun p => p.2))),
                  baseline_std := round2 (effectiveStd sqrtFn (w.map (fun p => p.2))),
                  multiplier := round2 (if 0 < sampleMean (w.map (fun p => p.2))
                    then cv / sampleMean (w.map (fun p => p.2)) else cv),
                  top_emotes := emotes },
            { d with last_hype := d.last_hype.set c now })
        else (none, d)) := by
    simp [HypeDetector.check_for_hype, hcool, hw, Nat.not_lt.mpr hlen, not_lt.mpr hmin]
  have hchk1 : (d.check_for_hype sqrtFn c cv emotes now).1
      = (if burstThreshold d sqrtFn (w.map (fun p => p.2)) < cv then
          some { channel := c, timestamp := now, velocity := cv,
                 baseline_mean := round2 (sampleMean (w.map (fun p => p.2))),
                 baseline_std := round2 (effectiveStd sqrtFn (w.map (fun p => p.2))),
                 multiplier := round2 (if 0 < sampleMean (w.map (fun p => p.2))
                   then cv / sampleMean (w.map (fun p => p.2)) else cv),
                 top_emotes := emotes }
        else none) := by
    rw [hchk, apply_ite Prod.fst]
  refine ⟨heff, hthr, ?_, ?_⟩
  · rw [hchk1, hthr]
    constructor
    · intro hs
      by_contra hb
      rw [if_neg hb] at hs
      simp at hs
    · intro hb
      rw [if_pos hb]
      rfl
  · intro ev hev
    rw [hchk1, hthr] at hev
    by_cases hb : sampleMean (w.map (fun p => p.2)) + d.threshold_std * (1/10) < cv
    · rw [if_pos hb] at hev
      simp only [Option.some.injEq] at hev
      rw [← hev, heff]
      exact ⟨rfl, rfl⟩
    · rw [if_neg hb] at hev
      simp at hev

/-- **C6 witness**: production configuration, no cooldown, ten identical
retained samples of velocity 5 (sample variance 0), a square-root stand-in
vanishing exactly at 0: velocity 6 exceeds the epsilon threshold
5 + 2 × 0.1 = 5.2 and a burst fires. -/
theorem zero_std_epsilon_witness :
    ((detectorQuiet.check_for_hype sqrtLike "c" 6 [] 100).1).isSome = true := by
  have hmap : sampleWindow.map (fun p => p.2) = List.replicate 10 5 := rfl
  have hstd : sqrtLike (sampleVariance (sampleWindow.map (fun p => p.2))) = 0 := by
    rw [hmap, sampleVariance_replicate 10 5 (by norm_num)]
    simp [sqrtLike]
  have h := zero_std_epsilon detectorQuiet sqrtLike "c" 6 100 [] sampleWindow
    rfl (by norm_num [detectorQuiet]) (by simp [detectorQuiet, Dict.set])
    (by simp [sampleWindow]) hstd
  apply h.2.2.1.mpr
  rw [hmap, sampleMean_replicate 10 5 (by norm_num)]
  norm_num [detectorQuiet]

/-- **C10** (no-burst frame property): when `check_for_hype` returns no
event (cooldown gate, noise floor, insufficient samples, or a velocity at or
below threshold) the returned detector state is exactly the input state —
retained samples and last-burst times included; when it returns an event the
only state change is that channel's last-burst time, set to `now`. -/
theorem check_no_burst_frame (d : HypeDetector) (sqrtFn : ℚ → ℚ) (c : String)
    (cv now : ℚ) (emotes : List (String × Nat)) :
    ((d.check_for_hype sqrtFn c cv emotes now).1 = none →
      (d.check_for_hype sqrtFn c cv emotes now).2 = d)
    ∧ (∀ ev, (d.check_for_hype sqrtFn c cv emotes now).1 = some ev →
        (d.check_for_hype sqrtFn c cv emotes now).2.velocity_windows = d.velocity_windows
        ∧ (d.check_for_hype sqrtFn c cv emotes now).2.last_hype = d.last_hype.set c now) := by
  simp only [HypeDetector.check_for_hype]
  split
  · simp
  · split
    · simp
    · split
      · simp
      · split
        · simp
        · split
          · simp
          · simp

/-- **C10 witness**: a call gated by the noise floor (velocity 0 below the
minimum 5) returns the detector state unchanged. -/
theorem check_no_burst_frame_witness :
    (detectorQuiet.check_for_hype sqrtLike "c" 0 [] 100).2 = detectorQuiet := by
  apply (check_no_burst_frame detectorQuiet sqrtLike "c" 0 100 []).1
  rfl

/-- The send loop partitions the registry into the successful and the
failing sinks, in registry order. -/
theorem broadcastPass_eq (sendOk : Sink → Bool) (l : List Sink) :
    broadcastPass sendOk l = (l.filter sendOk, l.filter (fun s => !(sendOk s))) := by
  induction l with
  | nil => rfl
  | cons s rest ih =>
    by_cases h : sendOk s <;> simp [broadcastPass, ih, h, List.filter_cons]

/-- **C7** (broadcast isolation): a broadcast delivers the payload to every
registered sink whose send succeeds — one sink's failure never blocks the
others — and afterwards the registry holds exactly the sinks that did not
fail; concretely, with registered sinks 0, 1, 2 where only sink 1 fails,
sinks 0 and 2 receive the payload and only sink 1 is unregistered. -/
theorem broadcast_isolation (conns : List Sink) (sendOk : Sink → Bool) :
    ((broadcast conns sendOk).1 = conns.filter sendOk)
    ∧ ((broadcast conns sendOk).2 = conns.filter sendOk)
    ∧ (∀ s ∈ conns, sendOk s = true → s ∈ (broadcast conns sendOk).1)
    ∧ (∀ s ∈ conns, sendOk s = false → s ∉ (broadcast conns sendOk).2)
    ∧ ((broadcast [0, 1, 2] (fun s => decide (s ≠ 1))).1 = [0, 2]
        ∧ (broadcast [0, 1, 2] (fun s => decide (s ≠ 1))).2 = [0, 2]) := by
  have hkey : ∀ (l : List Sink) (ok : Sink → Bool),
      (broadcast l ok).1 = l.filter ok ∧ (broadcast l ok).2 = l.filter ok := by
    intro l ok
    by_cases hl : l = []
    · subst hl
      simp [broadcast]
    · have hfix : l.filter (fun s => decide (s ∉ l.filter (fun x => !(ok x)))) = l.filter ok := by
        apply List.filter_congr
        intro a ha
        by_cases h : ok a
        · simp [h, List.mem_filter]
        · simp [h, List.mem_filter, ha]
      simp only [broadcast, hl, if_neg (by exact hl), broadcastPass_eq]
      exact ⟨rfl, hfix⟩
  refine ⟨(hkey conns sendOk).1, (hkey conns sendOk).2, ?_, ?_, ?_⟩
  · intro s hs hok
    rw [(hkey conns sendOk).1]
    exact List.mem_filter.mpr ⟨hs, hok⟩
  · intro s _ hok hmem
    rw [(hkey conns sendOk).2] at hmem
    have := (List.mem_filter.mp hmem).2
    rw [hok] at this
    cases this
  · constructor
    · rw [(hkey [0, 1, 2] (fun s => decide (s ≠ 1))).1]
      decide
    · rw [(hkey [0, 1, 2] (fun s => decide (s ≠ 1))).2]
      decide

/-- Members of `firstKeysAux seen ts` occur in `ts` and avoid `seen`. -/
theorem mem_firstKeysAux (ts : List String) :
    ∀ (seen : List String) (x : String), x ∈ firstKeysAux seen ts → x ∈ ts ∧ x ∉ seen := by
  induction ts with
  | nil => intro seen x h; simp [firstKeysAux] at h
  | cons t ts ih =>
    intro seen x h
    simp only [firstKeysAux] at h
    by_cases ht : t ∈ seen
    · rw [if_pos ht] at h
      obtain ⟨hx, hs⟩ := ih seen x h
      exact ⟨List.mem_cons_of_mem _ hx, hs⟩
    · rw [if_neg ht] at h
      rcases List.mem_cons.mp h with h | h
      · subst h
        exact ⟨List.mem_cons_self _ _, ht⟩
      · obtain ⟨hx, hs⟩ := ih (t :: seen) x h
        exact ⟨List.mem_cons_of_mem _ hx, fun hx' => hs (List.mem_cons_of_mem _ hx')⟩

/-- Every token not yet seen appears among the keys. -/
theorem mem_firstKeysAux_of_mem (ts : List String) :
    ∀ (seen : List String) (x : String), x ∈ ts → x ∉ seen → x ∈ firstKeysAux seen ts := by
  induction ts with
  | nil => intro seen x h _; simp at h
  | cons t ts ih =>
    intro seen x hx hs
    simp only [firstKeysAux]
    by_cases ht : t ∈ seen
    · rw [if_pos ht]
      rcases List.mem_cons.mp hx with h | h
      · exact absurd (h ▸ ht) hs
      · exact ih seen x h hs
    · rw [if_neg ht]
      by_cases hxt : x = t
      · rw [hxt]
        exact List.mem_cons_self _ _
      · rcases List.mem_cons.mp hx with h | h
        · exact absurd h hxt
        · refine List.mem_cons_of_mem _ (ih (t :: seen) x h ?_)
          intro hmem
          rcases List.mem_cons.mp hmem with h' | h'
          · exact hxt h'
          · exact hs h'

/-- The keys are distinct. -/
theorem nodup_firstKeysAux (ts : List String) :
    ∀ seen : List String, (firstKeysAux seen ts).Nodup := by
  induction ts with
  | nil => intro seen; simp [firstKeysAux]
  | cons t ts ih =>
    intro seen
    simp only [firstKeysAux]
    by_cases ht : t ∈ seen
    · rw [if_pos ht]
      exact ih seen
    · rw [if_neg ht]
      refine List.nodup_cons.mpr ⟨?_, ih (t :: seen)⟩
      intro hmem
      exact (mem_firstKeysAux ts (t :: seen) t hmem).2 (List.mem_cons_self _ _)

/-- The keys appear in order of first occurrence in the token stream. -/
theorem pairwise_firstKeysAux (ts : List String) :
    ∀ seen : List String,
      (firstKeysAux seen ts).Pairwise (fun a b => ts.indexOf a < ts.indexOf b) := by
  induction ts with
  | nil => intro seen; simp [firstKeysAux]
  | cons t ts ih =>
    intro seen
    simp only [firstKeysAux]
    by_cases ht : t ∈ seen
    · rw [if_pos ht]
      refine (ih seen).imp_of_mem ?_
      intro a b ha hb hab
      have hat : t ≠ a := fun h => (mem_firstKeysAux ts seen a ha).2 (h ▸ ht)
      have hbt : t ≠ b := fun h => (mem_firstKeysAux ts seen b hb).2 (h ▸ ht)
      rw [List.indexOf_cons_ne ts hat, List.indexOf_cons_ne ts hbt]
      exact Nat.succ_lt_succ hab
    · rw [if_neg ht]
      refine List.pairwise_cons.mpr ⟨?_, ?_⟩
      · intro b hb
        have hbt : t ≠ b := fun h =>
          (mem_firstKeysAux ts (t :: seen) b hb).2 (h ▸ List.mem_cons_self t seen)
        rw [List.indexOf_cons_self, List.indexOf_cons_ne ts hbt]
        exact Nat.succ_pos _
      · refine (ih (t :: seen)).imp_of_mem ?_
        intro a b ha hb hab
        have hat : t ≠ a := fun h =>
          (mem_firstKeysAux ts (t :: seen) a ha).2 (h ▸ List.mem_cons_self t seen)
        have hbt : t ≠ b := fun h =>
          (mem_firstKeysAux ts (t :: seen) b hb).2 (h ▸ List.mem_cons_self t seen)
        rw [List.indexOf_cons_ne ts hat, List.indexOf_cons_ne ts hbt]
        exact Nat.succ_lt_succ hab

/-- Insertion is a permutation of consing. -/
theorem insertByCount_perm (p : String × Nat) (l : List (String × Nat)) :
    List.Perm (insertByCount p l) (p :: l) := by
  induction l with
  | nil => exact List.Perm.refl _
  | cons q t ih =>
    by_cases h : p.2 < q.2
    · simp only [insertByCount, if_pos h]
      exact List.Perm.trans (List.Perm.cons q ih) (List.Perm.swap p q t)
    · simp only [insertByCount, if_neg h]
      exact List.Perm.refl _

/-- The stable sort is a permutation of its input. -/
theorem sortByCountDesc_perm (l : List (String × Nat)) :
    List.Perm (sortByCountDesc l) l := by
  induction l with
  | nil => exact List.Perm.refl _
  | cons p t ih =>
    exact List.Perm.trans (insertByCount_perm p (sortByCountDesc t)) (List.Perm.cons p ih)

/-- Stable insertion into a count-descending list keeps it sorted, with ties
ordered by the underlying relation `S` (which relates the inserted element to
everything already present). -/
theorem insertByCount_pairwise {S : (String × Nat) → (String × Nat) → Prop}
    (p : String × Nat) :
    ∀ l : List (String × Nat),
      l.Pairwise (fun a b => b.2 < a.2 ∨ (a.2 = b.2 ∧ S a b)) →
      (∀ x ∈ l, S p x) →
      (insertByCount p l).Pairwise (fun a b => b.2 < a.2 ∨ (a.2 = b.2 ∧ S a b)) := by
  intro l
  induction l with
  | nil =>
    intro _ _
    simp [insertByCount]
  | cons q t ih =>
    intro hl hp
    obtain ⟨hq, ht⟩ := List.pairwise_cons.mp hl
    by_cases h : p.2 < q.2
    · simp only [insertByCount, if_pos h]
      refine List.pairwise_cons.mpr
        ⟨?_, ih ht (fun x hx => hp x (List.mem_cons_of_mem _ hx))⟩
      intro y hy
      rcases List.mem_cons.mp ((insertByCount_perm p t).mem_iff.mp hy) with h' | h'
      · rw [h']
        exact Or.inl h
      · exact hq y h'
    · simp only [insertByCount, if_neg h]
      refine List.pairwise_cons.mpr ⟨?_, hl⟩
      intro y hy
      rcases List.mem_cons.mp hy with h' | h'
      · rw [h']
        rcases Nat.lt_or_ge q.2 p.2 with hlt | hge
        · exact Or.inl hlt
        · have heq : p.2 = q.2 := by omega
          exact Or.inr ⟨heq, hp q (List.mem_cons_self _ _)⟩
      · rcases hq y h' with h1 | h1
        · exact Or.inl (by omega)
        · rcases Nat.lt_or_ge y.2 p.2 with hlt | hge
          · exact Or.inl hlt
          · have heq : p.2 = y.2 := by omega
            exact Or.inr ⟨heq, hp y (List.mem_cons_of_mem _ h')⟩

/-- Stability of the descending sort: an input ordered by any relation `S`
comes out sorted by count with ties still ordered by `S`. -/
theorem sortByCountDesc_pairwise {S : (String × Nat) → (String × Nat) → Prop} :
    ∀ l : List (String × Nat), l.Pairwise S →
      (sortByCountDesc l).Pairwise (fun a b => b.2 < a.2 ∨ (a.2 = b.2 ∧ S a b)) := by
  intro l
  induction l with
  | nil =>
    intro _
    simp [sortByCountDesc]
  | cons p t ih =>
    intro hl
    obtain ⟨hp, ht⟩ := List.pairwise_cons.mp hl
    exact insertByCount_pairwise p (sortByCountDesc t) (ih ht)
      (fun x hx => hp x ((sortByCountDesc_perm t).mem_iff.mp hx))

/-- **C9** (top emotes): the result is the truncation to at most 10 entries
of a stable count-descending sort of the per-token frequency counts of all
emote tokens of the horizon — every entry carries its token's exact count,
every token of the horizon is represented before truncation, keys are
distinct, and entries are ordered by count descending with ties in order of
first occurrence. -/
theorem top_emotes_spec (messages : List ChatMessage) :
    (get_top_emotes messages 10).length ≤ 10
    ∧ get_top_emotes messages 10
        = (sortByCountDesc (counterItems (allTokens messages))).take 10
    ∧ List.Perm (sortByCountDesc (counterItems (allTokens messages)))
        (counterItems (allTokens messages))
    ∧ (∀ p ∈ get_top_emotes messages 10,
        p.2 = (allTokens messages).count p.1 ∧ p.1 ∈ allTokens messages)
    ∧ (∀ e ∈ allTokens messages,
        (e, (allTokens messages).count e)
          ∈ sortByCountDesc (counterItems (allTokens messages)))
    ∧ ((counterItems (allTokens messages)).map Prod.fst).Nodup
    ∧ (get_top_emotes messages 10).Pairwise (fun a b =>
        b.2 < a.2 ∨ (a.2 = b.2
          ∧ (allTokens messages).indexOf a.1 < (allTokens messages).indexOf b.1)) := by
  have hperm := sortByCountDesc_perm (counterItems (allTokens messages))
  have hentry : ∀ p ∈ counterItems (allTokens messages),
      p.2 = (allTokens messages).count p.1 ∧ p.1 ∈ allTokens messages := by
    intro p hp
    obtain ⟨e, he, rfl⟩ := List.mem_map.mp hp
    exact ⟨rfl, (mem_firstKeysAux (allTokens messages) [] e he).1⟩
  refine ⟨List.length_take_le _ _, rfl, hperm, ?_, ?_, ?_, ?_⟩
  · intro p hp
    exact hentry p (hperm.mem_iff.mp (List.take_subset _ _ hp))
  · intro e he
    apply hperm.mem_iff.mpr
    exact List.mem_map.mpr
      ⟨e, mem_firstKeysAux_of_mem (allTokens messages) [] e he (by simp), rfl⟩
  · have hmapfst : (counterItems (allTokens messages)).map Prod.fst
        = firstKeysAux [] (allTokens messages) := by
      simp only [counterItems, List.map_map]
      exact List.map_id _
    rw [hmapfst]
    exact nodup_firstKeysAux (allTokens messages) []
  · apply List.Pairwise.sublist (List.take_sublist _ _)
    apply sortByCountDesc_pairwise
    exact List.pairwise_map.mpr (pairwise_firstKeysAux (allTokens messages) [])

/-- `finishChannel` never touches the hype fields of the trace. -/
theorem finishChannel_trace (t : ChannelTrace) (o : Outcome) :
    (finishChannel t o).2.hypeSaved = t.hypeSaved
    ∧ (finishChannel t o).2.hypeBroadcast = t.hypeBroadcast
    ∧ (finishChannel t o).2.hypeErrorLogged = t.hypeErrorLogged := by
  cases o <;> simp [finishChannel]

/-- A tick over channels that all complete, then an erroring channel:
the iteration stops right after the erroring channel. -/
theorem runTick_append_errored (stepsOne : String → ChannelStep) (c : String)
    (cs2 : List String) (h2 : (processChannel (stepsOne c)).1 = .errored) :
    ∀ cs1 : List String, (∀ x ∈ cs1, (processChannel (stepsOne x)).1 = .completed) →
      runTick stepsOne (cs1 ++ c :: cs2)
        = (cs1.map (fun x => (x, (processChannel (stepsOne x)).2))
            ++ [(c, (processChannel (stepsOne c)).2)], .errored) := by
  intro cs1
  induction cs1 with
  | nil =>
    intro _
    rcases hpc : processChannel (stepsOne c) with ⟨sig, tr⟩
    rw [hpc] at h2
    simp only at h2
    subst h2
    simp [runTick, hpc]
  | cons x cs1 ih =>
    intro h1
    rcases hpx : processChannel (stepsOne x) with ⟨sig, tr⟩
    have hx := h1 x (List.mem_cons_self _ _)
    rw [hpx] at hx
    simp only at hx
    subst hx
    have ih' := ih (fun y hy => h1 y (List.mem_cons_of_mem _ hy))
    simp only [List.cons_append, runTick, hpx, ih']
    simp [hpx, ih']

/-- **C1 corrected — counterexample to the stated claim**: with channels
["a", "b"] where processing "a" raises during its metrics broadcast, the
tick ends in the loop-level exception handler after "a" alone — channel "b"
of the same tick is not processed. A cancellation arriving during "a"'s
broadcast likewise ends the tick mid-channel, before "a"'s broadcast
completed and before "b" ran. -/
theorem loop_error_skips_rest_cex :
    ((runTick envOneFailure ["a", "b"]).1.map Prod.fst = ["a"]
      ∧ (runTick envOneFailure ["a", "b"]).2 = TickSignal.errored)
    ∧ ((runTick envOneCancel ["a", "b"]).1.map Prod.fst = ["a"]
      ∧ (runTick envOneCancel ["a", "b"]).2 = TickSignal.cancelled
      ∧ (runTick envOneCancel ["a", "b"]).1
          = [("a", ⟨false, false, false, false⟩)]) := by
  decide

/-- **C1 amended**: an exception while processing one channel is caught (and
logged) by the handler wrapping the whole tick, so the remaining channels of
that tick are skipped, not processed; the loop itself does not terminate on
such an error — with no cancellation signal it keeps executing full ticks —
and it terminates only on an explicit cancellation signal, which it observes
at the awaited call where the signal lands (possibly mid-channel). -/
theorem loop_error_isolation (steps : Nat → String → ChannelStep) (sleepCancel : Nat → Bool)
    (channels : List String) :
    (∀ (stepsOne : String → ChannelStep) (cs1 cs2 : List String) (c : String),
      (∀ x ∈ cs1, (processChannel (stepsOne x)).1 = .completed) →
      (processChannel (stepsOne c)).1 = .errored →
      (runTick stepsOne (cs1 ++ c :: cs2)).2 = .errored
      ∧ (runTick stepsOne (cs1 ++ c :: cs2)).1.map Prod.fst = cs1 ++ [c])
    ∧ (∀ fuel t0 : Nat,
        (∀ t, (runTick (steps t) channels).2 ≠ .cancelled) →
        (∀ t, sleepCancel t = false) →
        (broadcastMetricsLoop steps sleepCancel channels fuel t0).2 = .fuelExhausted
        ∧ (broadcastMetricsLoop steps sleepCancel channels fuel t0).1.length = fuel) := by
  constructor
  · intro stepsOne cs1 cs2 c h1 h2
    rw [runTick_append_errored stepsOne c cs2 h2 cs1 h1]
    refine ⟨rfl, ?_⟩
    have hid : List.map (Prod.fst ∘ fun x => (x, (processChannel (stepsOne x)).2)) cs1 = cs1 :=
      List.map_id cs1
    simp only [List.map_append, List.map_map, List.map_cons, List.map_nil, hid]
  · intro fuel
    induction fuel with
    | zero =>
      intro t0 _ _
      exact ⟨rfl, rfl⟩
    | succ n ih =>
      intro t0 hnc hsl
      rcases hrt : runTick (steps t0) channels with ⟨trs, sig⟩
      have hsig : sig ≠ .cancelled := by
        intro h
        exact hnc t0 (by rw [hrt, h])
      obtain ⟨ihe, ihl⟩ := ih (t0 + 1) hnc hsl
      cases sig with
      | cancelled => exact absurd rfl hsig
      | completed =>
        simp only [broadcastMetricsLoop, hrt, hsl t0, Bool.false_eq_true, if_false]
        exact ⟨ihe, by simp [ihl]⟩
      | errored =>
        simp only [broadcastMetricsLoop, hrt, hsl t0, Bool.false_eq_true, if_false]
        exact ⟨ihe, by simp [ihl]⟩

/-- **C1 amended, witness**: two ticks over channels ["a", "b"] where "a"'s
broadcast raises every tick and no cancellation ever arrives: both ticks
run (the loop survives the errors) and each tick stops after "a". -/
theorem loop_error_isolation_witness :
    ((runTick envOneFailure (["a"] ++ "b" :: [])).2 = .errored
      ∧ (runTick envOneFailure (["a"] ++ "b" :: [])).1.map Prod.fst = ["a"] ++ ["b"])
    ∨ ((broadcastMetricsLoop (fun _ => envOneFailure) (fun _ => false) ["a", "b"] 2 0).2
          = LoopEnd.fuelExhausted
      ∧ (broadcastMetricsLoop (fun _ => envOneFailure) (fun _ => false) ["a", "b"] 2 0).1.length
          = 2) := by
  exact Or.inr ((loop_error_isolation (fun _ => envOneFailure) (fun _ => false) ["a", "b"]).2
    2 0 (fun t => by decide) (fun t => rfl))

/-- **C2 corrected — counterexample to the stated claim**: when the
durable-store save raises, the error is logged but the hype broadcast does
*not* proceed — both calls sit in the same try block, so the event is never
delivered to the burst subscribers. -/
theorem save_failure_skips_broadcast_cex :
    (processChannel stepSaveFails).2.hypeErrorLogged = true
    ∧ (processChannel stepSaveFails).2.hypeBroadcast = false
    ∧ (processChannel stepSaveFails).1 = StepSignal.completed := by
  decide

/-- **C2 amended**: if the durable-store save of a hype event raises, the
error is caught by the inner handler and logged, the hype broadcast of that
event is skipped (delivery does depend on persistence succeeding), and the
failure is contained there: the channel's processing continues with its
metrics broadcast exactly as if no hype had fired. -/
theorem save_failure_logged_and_contained (s : ChannelStep)
    (hm : s.metricsRaises = false) (hh : s.hypeDetected = true)
    (hs : s.saveOutcome = .raised) :
    (processChannel s).2.hypeErrorLogged = true
    ∧ (processChannel s).2.hypeBroadcast = false
    ∧ (processChannel s).2.hypeSaved = false
    ∧ processChannel s
        = finishChannel ⟨false, false, true, false⟩ s.metricsBroadcastOutcome
    ∧ (s.metricsBroadcastOutcome = .ok →
        (processChannel s).1 = .completed ∧ (processChannel s).2.metricsBroadcast = true) := by
  have hpc : processChannel s
      = finishChannel ⟨false, false, true, false⟩ s.metricsBroadcastOutcome := by
    simp [processChannel, hm, hh, hs]
  obtain ⟨h1, h2, h3⟩ := finishChannel_trace ⟨false, false, true, false⟩ s.metricsBroadcastOutcome
  refine ⟨by rw [hpc]; exact h3, by rw [hpc]; exact h2, by rw [hpc]; exact h1, hpc, ?_⟩
  intro hok
  rw [hpc, hok]
  exact ⟨rfl, rfl⟩

/-- **C2 amended, witness**: the concrete failing-save step completes its
channel with the metrics broadcast delivered and the hype broadcast
skipped. -/
theorem save_failure_logged_and_contained_witness :
    (processChannel stepSaveFails).1 = .completed
    ∧ (processChannel stepSaveFails).2.metricsBroadcast = true :=
  (save_failure_logged_and_contained stepSaveFails rfl rfl rfl).2.2.2.2 rfl

end TwitchDash
